import Mathlib

/-!
Verification of the epicycle / waveform demo in src/src/main.cpp.

The core logic of the program lives in the `Circle Window` block of `main`:
an epicycle chain (lines 205-217), a tangent-indicator (lines 220-230),
a six-way trigonometric evaluator with pole guards and a final clamp
(lines 233-249), and a rolling waveform buffer with a polyline renderer
(lines 253-276).

Modelling choices:
* float arithmetic is embedded as exact arithmetic; the evaluator and the
  sample buffer, which use only field operations and comparisons, are
  embedded over `ℚ` (every finite IEEE float is a rational, and the code
  paths only branch on order comparisons), so they stay executable;
* the chain geometry uses `cosf`/`sinf`, embedded over `ℝ` with `Real.cos`
  and `Real.sin`;
* the source approximates pi by the literal `3.14159f` (line 208); the
  embedding keeps that literal.
-/

namespace Fourier

/-- A 2D screen-space point, the role played by `ImVec2` in the source. -/
structure Point2D where
  x : ℝ
  y : ℝ

/-- The pi approximation hard-coded at line 208 of src/src/main.cpp. -/
def piLit : ℝ := 3.14159

/-- Radius of circle `i` of the chain: `base_radius * (4.0f / (n * 3.14159f))`
with `n = 2 * i + 1` (lines 207-208). -/
noncomputable def circleRadius (baseRadius : ℝ) (i : ℕ) : ℝ :=
  baseRadius * (4 / ((2 * i + 1) * piLit))

/-- Rotation angle of circle `i`: `-time * n` with `n = 2 * i + 1` (line 210). -/
noncomputable def circleAngle (time : ℝ) (i : ℕ) : ℝ :=
  -time * (2 * i + 1)

/-- A circle of the chain: drawn at `prev_pos` with radius `radius` (line 213). -/
structure Circle where
  center : Point2D
  radius : ℝ

/-- Center of circle `i` of the chain, following the loop at lines 205-217:
`prev_pos` starts at the anchor and each iteration moves it to
`prev_pos + radius * (cos angle, sin angle)` (lines 211-212, 216). -/
noncomputable def chainCenter (origin : Point2D) (baseRadius time : ℝ) : ℕ → Point2D
  | 0 => origin
  | i + 1 =>
    let p := chainCenter origin baseRadius time i
    ⟨p.x + circleRadius baseRadius i * Real.cos (circleAngle time i),
     p.y + circleRadius baseRadius i * Real.sin (circleAngle time i)⟩

/-- Result of one frame of the epicycle loop: the circles drawn, the final
tip (`current_pos` after the loop) and the tip offset from the anchor
(`dx`, `dy` at lines 234-235). -/
structure ChainResult where
  circles : List Circle
  tip : Point2D
  tipOffsetFromOrigin : Point2D

/-- The epicycle loop of lines 205-217 as a pure function of the anchor,
the circle count, the base radius and the time. -/
noncomputable def compute (origin : Point2D) (circleCount : ℕ)
    (baseRadius time : ℝ) : ChainResult :=
  { circles := (List.range circleCount).map fun i =>
      ⟨chainCenter origin baseRadius time i, circleRadius baseRadius i⟩
    tip := chainCenter origin baseRadius time circleCount
    tipOffsetFromOrigin :=
      ⟨(chainCenter origin baseRadius time circleCount).x - origin.x,
       (chainCenter origin baseRadius time circleCount).y - origin.y⟩ }

/-- The tangent-indicator endpoints of lines 220-227: the radius vector from
the last circle center to the tip, rotated by 90 degrees, normalized only
when its length is positive, then scaled by `50 * scale` on both sides of
the tip. -/
noncomputable def tangentIndicator (tip lastCenter : Point2D) (scale : ℝ) :
    Point2D × Point2D :=
  let rx := tip.x - lastCenter.x
  let ry := tip.y - lastCenter.y
  let tx0 := -ry
  let ty0 := rx
  let len := Real.sqrt (tx0 * tx0 + ty0 * ty0)
  let tx := if len > 0 then tx0 / len else tx0
  let ty := if len > 0 then ty0 / len else ty0
  let tl := 50 * scale
  (⟨tip.x - tx * tl, tip.y - ty * tl⟩, ⟨tip.x + tx * tl, tip.y + ty * tl⟩)

/-- The six entries of the `Function` combo at line 186. -/
inductive FunctionSelector
  | Sine
  | Cosine
  | Tangent
  | Cosecant
  | Secant
  | Cotangent
deriving DecidableEq

/-- The pole-guard threshold `epsilon = 0.001f` (line 236). -/
def epsilon : ℚ := 0.001

/-- The final clamp of lines 248-249: `val` is clipped to `[-4000, 4000]`. -/
def clamp (v : ℚ) : ℚ :=
  if v > 4000 then 4000 else if v < -4000 then -4000 else v

/-- The `switch (func_type)` of lines 238-246, before the final clamp. -/
def rawValue (s : FunctionSelector) (dx dy baseRadius : ℚ) : ℚ :=
  match s with
  | .Sine => dy
  | .Cosine => dx
  | .Tangent =>
    if |dx| > epsilon then dy / dx * baseRadius
    else if dy > 0 then 2000 else -2000
  | .Cosecant =>
    if |dy| > epsilon then baseRadius * baseRadius / dy
    else if dy > 0 then 2000 else -2000
  | .Secant =>
    if |dx| > epsilon then baseRadius * baseRadius / dx
    else if dx > 0 then 2000 else -2000
  | .Cotangent =>
    if |dy| > epsilon then dx / dy * baseRadius
    else if dx > 0 then 2000 else -2000

/-- The full evaluator of lines 233-249: the selected raw value followed by
the `[-4000, 4000]` clamp. -/
def evaluate (s : FunctionSelector) (offset : ℚ × ℚ) (baseRadius : ℚ) : ℚ :=
  clamp (rawValue s offset.1 offset.2 baseRadius)

/-- One frame of the rolling buffer update at lines 260-262: when the size
exceeds `maxLength`, erase `size - maxLength` entries from the front, then
push the new sample at the back. -/
def append (buffer : List ℚ) (sample : ℚ) (maxLength : ℕ) : List ℚ :=
  (if buffer.length > maxLength then
    buffer.drop (buffer.length - maxLength)
  else buffer) ++ [sample]

/-- The polyline points of the drawing loop at lines 266-276: the sample at
vector index `i` (oldest at the front) is drawn at
`(graph_x_start + (size - 1 - i), wave_data[i])`. -/
def toPolyline (buffer : List ℚ) (anchorX : ℚ) : List (ℚ × ℚ) :=
  (List.range buffer.length).map fun i =>
    (anchorX + ((buffer.length - 1 - i : ℕ) : ℚ), buffer.getD i 0)

/-- C1, counterexample: `append` on a buffer already exactly at `maxLength`
does not drop any element (the eviction test at line 260 is strict), so the
result is one longer than `maxLength`, refuting the claimed bound. -/
theorem C1_counterexample : ¬ ((Fourier.append [0, 0] 1 2).length ≤ 2) := by
  decide

/-- C1, amended: `append` unconditionally equals dropping the oldest
`length - maxLength` entries (zero when the buffer is not over the bound,
and never more than needed) and then pushing the sample, so the resulting
length is `min length maxLength + 1`; in particular a buffer already at
`maxLength` keeps all entries and grows to `maxLength + 1`, and after
`maxLength` shrinks the next append truncates to the new bound plus one. -/
theorem C1_append_amended (buffer : List ℚ) (sample : ℚ) (maxLength : ℕ) :
    Fourier.append buffer sample maxLength
      = buffer.drop (buffer.length - maxLength) ++ [sample] ∧
    (Fourier.append buffer sample maxLength).length
      = min buffer.length maxLength + 1 := by
  have heq : Fourier.append buffer sample maxLength
      = buffer.drop (buffer.length - maxLength) ++ [sample] := by
    unfold Fourier.append
    split
    · rfl
    · rename_i h
      push_neg at h
      rw [Nat.sub_eq_zero_of_le h, List.drop_zero]
  refine ⟨heq, ?_⟩
  rw [heq, List.length_append, List.length_drop, List.length_singleton]
  omega

/-- C4: for every selector, offset and base radius, `evaluate` lands in the
closed interval `[-4000, 4000]` - anything outside is clipped by the final
clamp of lines 248-249, and the pole-guard values `±2000` are inside. -/
theorem C4_evaluate_bounded (s : FunctionSelector) (offset : ℚ × ℚ)
    (baseRadius : ℚ) :
    -4000 ≤ evaluate s offset baseRadius ∧ evaluate s offset baseRadius ≤ 4000 := by
  unfold evaluate clamp
  split
  · exact ⟨by norm_num, le_refl _⟩
  · split
    · exact ⟨le_refl _, by norm_num⟩
    · rename_i h1 h2
      push_neg at h1 h2
      exact ⟨h2, h1⟩

/-- C5: the Tangent selector takes the pole branch exactly when
`|dx| ≤ 0.001`, returning `+2000` for `dy > 0` and `-2000` otherwise
(values the outer clamp leaves untouched); away from the pole the raw value
is `dy / dx * baseRadius`. -/
theorem C5_tangent_pole :
    (∀ (x y r : ℚ), |x| ≤ epsilon →
      evaluate .Tangent (x, y) r = if y > 0 then 2000 else -2000) ∧
    evaluate .Tangent (0, 5) 60 = 2000 ∧
    evaluate .Tangent (0, -5) 60 = -2000 ∧
    (∀ (x y r : ℚ), epsilon < |x| → rawValue .Tangent x y r = y / x * r) := by
  refine ⟨?_, by norm_num [evaluate, rawValue, clamp, epsilon],
    by norm_num [evaluate, rawValue, clamp, epsilon], ?_⟩
  · intro x y r h
    have hx : ¬ (|x| > epsilon) := not_lt.mpr h
    simp only [evaluate, rawValue, hx, if_false, clamp]
    split <;> norm_num
  · intro x y r h
    simp [rawValue, h]

/-- C5 witness: the theorem applied at the concrete pole input `(0, 5)` and
at the off-pole input `dx = 2, dy = 3`. -/
theorem C5_tangent_pole_witness :
    (|(0 : ℚ)| ≤ epsilon ∧
      evaluate .Tangent (0, 5) 60 = if (5 : ℚ) > 0 then 2000 else -2000) ∧
    (epsilon < |(2 : ℚ)| ∧ rawValue .Tangent 2 3 60 = 3 / 2 * 60) :=
  ⟨⟨by norm_num [epsilon], C5_tangent_pole.1 0 5 60 (by norm_num [epsilon])⟩,
   ⟨by norm_num [epsilon], C5_tangent_pole.2.2.2 2 3 60 (by norm_num [epsilon])⟩⟩

/-- C8, counterexample: the Sine selector does not return `offset.y` for
every offset - the final clamp caps it, e.g. at `offset = (0, 5000)` the
evaluator returns `4000`, not `5000`. -/
theorem C8_counterexample :
    evaluate .Sine (0, 5000) 60 = 4000 ∧ (4000 : ℚ) ≠ 5000 := by
  refine ⟨?_, by norm_num⟩
  norm_num [evaluate, rawValue, clamp]

/-- C8, amended: the Sine selector returns `clamp offset.y`, which equals
`offset.y` exactly whenever `|offset.y| ≤ 4000`, independent of
`baseRadius` and `offset.x`; concretely
`evaluate Sine (30, 40) 60 = 40`. -/
theorem C8_sine_amended :
    (∀ (x y r : ℚ), evaluate .Sine (x, y) r = clamp y) ∧
    (∀ (x y r : ℚ), |y| ≤ 4000 → evaluate .Sine (x, y) r = y) ∧
    evaluate .Sine (30, 40) 60 = 40 := by
  refine ⟨fun x y r => rfl, ?_, by norm_num [evaluate, rawValue, clamp]⟩
  intro x y r h
  have h1 := abs_le.mp h
  simp only [evaluate, rawValue, clamp]
  rw [if_neg (not_lt.mpr h1.2), if_neg (not_lt.mpr h1.1)]

/-- C8 witness: the amended theorem applied at the concrete input
`offset = (30, 40)`, `baseRadius = 60`. -/
theorem C8_sine_amended_witness :
    |(40 : ℚ)| ≤ 4000 ∧ evaluate .Sine (30, 40) 60 = 40 :=
  ⟨by norm_num, C8_sine_amended.2.1 30 40 60 (by norm_num)⟩

/-- C9: every pole-guard sign test is strict (`> 0`), so an exactly-zero
sign coordinate yields `-2000`, never `+2000`: Tangent at `(0, 0)`,
Cosecant at `(x, 0)` for arbitrary `x`, Secant at `(0, y)` for arbitrary
`y`, and Cotangent at `(0, 0)`. -/
theorem C9_strict_sign_pole :
    (∀ r : ℚ, evaluate .Tangent (0, 0) r = -2000) ∧
    (∀ (x r : ℚ), evaluate .Cosecant (x, 0) r = -2000) ∧
    (∀ (y r : ℚ), evaluate .Secant (0, y) r = -2000) ∧
    (∀ r : ℚ, evaluate .Cotangent (0, 0) r = -2000) := by
  refine ⟨fun r => ?_, fun x r => ?_, fun y r => ?_, fun r => ?_⟩ <;>
    norm_num [evaluate, rawValue, clamp, epsilon]

/-- C6, counterexample: in the buffer `[10, 20]` drawn at `anchorX = 0`, the
newest sample (`20`, at the back, hence index `0` counting from the newest)
is drawn at x-coordinate `0`, not at `anchorX + (length - 1 - 0) = 1` as the
claimed formula for newest-based indexing would give. -/
theorem C6_counterexample :
    (toPolyline [10, 20] 0)[1]? = some (0, 20) ∧
    (0 : ℚ) ≠ 0 + ((2 - 1 - 0 : ℕ) : ℚ) := by
  constructor
  · norm_num [toPolyline, List.range_succ]
  · norm_num

/-- C6, amended: `toPolyline` yields one point per sample, and the sample at
vector index `i` counted from the OLDEST at the front (not from the newest)
is drawn at `anchorX + (length - 1 - i)`; consecutive x-coordinates
decrease by exactly `1` as the index grows, the newest sample (back of the
buffer) sits at `anchorX`, closest to the epicycle chain, and the oldest
(front) sits farthest to the right at `anchorX + (length - 1)`. -/
theorem C6_toPolyline_amended (buffer : List ℚ) (anchorX : ℚ) :
    (toPolyline buffer anchorX).length = buffer.length ∧
    (∀ i, i < buffer.length →
      (toPolyline buffer anchorX)[i]? =
        some (anchorX + ((buffer.length - 1 - i : ℕ) : ℚ), buffer.getD i 0)) ∧
    (∀ i p q, (toPolyline buffer anchorX)[i]? = some p →
      (toPolyline buffer anchorX)[i + 1]? = some q → p.1 = q.1 + 1) ∧
    (∀ p, (toPolyline buffer anchorX)[buffer.length - 1]? = some p →
      p.1 = anchorX) ∧
    (∀ p, (toPolyline buffer anchorX)[0]? = some p →
      p.1 = anchorX + ((buffer.length - 1 : ℕ) : ℚ)) := by
  have hlen : (toPolyline buffer anchorX).length = buffer.length := by
    simp [toPolyline]
  have hget : ∀ i, i < buffer.length →
      (toPolyline buffer anchorX)[i]? =
        some (anchorX + ((buffer.length - 1 - i : ℕ) : ℚ), buffer.getD i 0) := by
    intro i hi
    unfold toPolyline
    rw [List.getElem?_map, List.getElem?_range hi]
    rfl
  have hidx : ∀ i p, (toPolyline buffer anchorX)[i]? = some p →
      i < buffer.length := by
    intro i p hp
    by_contra hcon
    push_neg at hcon
    rw [List.getElem?_eq_none (by rw [hlen]; exact hcon)] at hp
    exact Option.noConfusion hp
  refine ⟨hlen, hget, ?_, ?_, ?_⟩
  · intro i p q hp hq
    have hi1 : i + 1 < buffer.length := hidx _ _ hq
    have hi : i < buffer.length := by omega
    rw [hget i hi] at hp
    rw [hget (i + 1) hi1] at hq
    have hp1 : p.1 = anchorX + ((buffer.length - 1 - i : ℕ) : ℚ) := by
      rw [← Option.some.inj hp]
    have hq1 : q.1 = anchorX + ((buffer.length - 1 - (i + 1) : ℕ) : ℚ) := by
      rw [← Option.some.inj hq]
    have hnat : buffer.length - 1 - i = buffer.length - 1 - (i + 1) + 1 := by
      omega
    rw [hp1, hq1, hnat]
    push_cast
    ring
  · intro p hp
    have h0 : 0 < buffer.length := by
      have := hidx _ _ hp
      omega
    rw [hget (buffer.length - 1) (by omega)] at hp
    have hp1 : p.1
        = anchorX + ((buffer.length - 1 - (buffer.length - 1) : ℕ) : ℚ) := by
      rw [← Option.some.inj hp]
    rw [hp1, Nat.sub_self]
    norm_num
  · intro p hp
    have h0 : 0 < buffer.length := hidx _ _ hp
    rw [hget 0 h0] at hp
    have hp1 : p.1 = anchorX + ((buffer.length - 1 - 0 : ℕ) : ℚ) := by
      rw [← Option.some.inj hp]
    rw [hp1, Nat.sub_zero]

/-- C2, counterexample: the source multiplies by the literal `3.14159f`
(line 208), not by the exact mathematical constant, so the radius of circle
`0` at `baseRadius = 60` differs from `60 * (4 / (1 * pi))`. -/
theorem C2_counterexample :
    circleRadius 60 0 ≠ 60 * (4 / (1 * Real.pi)) := by
  have hpi : (3.14159 : ℝ) < Real.pi :=
    lt_trans (by norm_num) Real.pi_gt_d6
  have h1 : (4 : ℝ) / Real.pi < 4 / 3.14159 :=
    div_lt_div_of_pos_left (by norm_num) (by norm_num) hpi
  have h2 : 60 * (4 / (1 * Real.pi)) < circleRadius 60 0 := by
    unfold circleRadius piLit
    push_cast
    rw [one_mul]
    have : (2 : ℝ) * 0 + 1 = 1 := by norm_num
    rw [this, one_mul]
    linarith
  exact (ne_of_lt h2).symm

/-- C2, amended: circle `i` has radius exactly
`baseRadius * (4 / ((2 * i + 1) * 3.14159))` with the literal pi
approximation of line 208; for `circleCount = 1`, `baseRadius = 60`,
`time = 0` the single circle sits at the origin with radius
`240 / 3.14159`, a value between `76.39` and `76.40`, and the tip lies at
`origin + (240 / 3.14159, 0)` since the rotation angle is `0`. -/
theorem C2_radius_amended :
    (∀ (origin : Point2D) (circleCount : ℕ) (baseRadius time : ℝ),
      (compute origin circleCount baseRadius time).circles.map Circle.radius
        = (List.range circleCount).map fun i : ℕ =>
            baseRadius * (4 / ((2 * i + 1) * (3.14159 : ℝ)))) ∧
    (compute ⟨0, 0⟩ 1 60 0).circles.map Circle.radius = [240 / 3.14159] ∧
    (compute ⟨0, 0⟩ 1 60 0).tip = ⟨240 / 3.14159, 0⟩ ∧
    (76.39 : ℝ) ≤ 240 / 3.14159 ∧ (240 : ℝ) / 3.14159 ≤ 76.40 := by
  refine ⟨?_, ?_, ?_, by norm_num, by norm_num⟩
  · intro origin circleCount baseRadius time
    simp only [compute]
    rw [List.map_map]
    rfl
  · norm_num [compute, circleRadius, piLit, List.range_succ]
  · simp only [compute]
    show chainCenter ⟨0, 0⟩ 60 0 1 = _
    simp only [chainCenter, circleAngle, circleRadius, piLit]
    norm_num

/-- C3: the chain has exactly `circleCount` circles, circle `0` is centered
at the anchor, and each next center is the previous circle's tip:
`center (i+1) = center i + radius i * (cos (-time * (2 i + 1)), sin (-time * (2 i + 1)))`,
following lines 205-217. -/
theorem C3_chain_structure (origin : Point2D) (circleCount : ℕ)
    (baseRadius time : ℝ) :
    (compute origin circleCount baseRadius time).circles.length = circleCount ∧
    (∀ c, (compute origin circleCount baseRadius time).circles[0]? = some c →
      c.center = origin) ∧
    (∀ i ci cj,
      (compute origin circleCount baseRadius time).circles[i]? = some ci →
      (compute origin circleCount baseRadius time).circles[i + 1]? = some cj →
      cj.center =
        ⟨ci.center.x + ci.radius * Real.cos (-time * (2 * i + 1)),
         ci.center.y + ci.radius * Real.sin (-time * (2 * i + 1))⟩) := by
  have hlen : (compute origin circleCount baseRadius time).circles.length
      = circleCount := by
    simp [compute]
  have hget : ∀ i, i < circleCount →
      (compute origin circleCount baseRadius time).circles[i]? =
        some ⟨chainCenter origin baseRadius time i, circleRadius baseRadius i⟩ := by
    intro i hi
    simp only [compute]
    rw [List.getElem?_map, List.getElem?_range hi]
    rfl
  have hidx : ∀ i c,
      (compute origin circleCount baseRadius time).circles[i]? = some c →
      i < circleCount := by
    intro i c hc
    by_contra hcon
    push_neg at hcon
    rw [List.getElem?_eq_none (by rw [hlen]; exact hcon)] at hc
    exact Option.noConfusion hc
  refine ⟨hlen, ?_, ?_⟩
  · intro c hc
    have h0 : 0 < circleCount := hidx _ _ hc
    rw [hget 0 h0] at hc
    rw [← Option.some.inj hc]
    rfl
  · intro i ci cj hci hcj
    have hi1 : i + 1 < circleCount := hidx _ _ hcj
    rw [hget i (by omega)] at hci
    rw [hget (i + 1) hi1] at hcj
    rw [← Option.some.inj hci, ← Option.some.inj hcj]
    show chainCenter origin baseRadius time (i + 1) = _
    simp only [chainCenter, circleAngle]

/-- C3 witness: the theorem applied to the concrete chain with anchor
`(0, 0)`, two circles, `baseRadius = 60` and `time = 0`. -/
theorem C3_chain_structure_witness :
    (compute ⟨0, 0⟩ 2 60 0).circles.length = 2 ∧
    Circle.center ⟨⟨0, 0⟩, circleRadius 60 0⟩ = (⟨0, 0⟩ : Point2D) ∧
    Circle.center ⟨chainCenter ⟨0, 0⟩ 60 0 1, circleRadius 60 1⟩ =
      (⟨(Circle.center ⟨⟨0, 0⟩, circleRadius 60 0⟩).x
          + (Circle.radius ⟨⟨0, 0⟩, circleRadius 60 0⟩)
            * Real.cos (-(0 : ℝ) * (2 * ((0 : ℕ) : ℝ) + 1)),
        (Circle.center ⟨⟨0, 0⟩, circleRadius 60 0⟩).y
          + (Circle.radius ⟨⟨0, 0⟩, circleRadius 60 0⟩)
            * Real.sin (-(0 : ℝ) * (2 * ((0 : ℕ) : ℝ) + 1))⟩ : Point2D) := by
  have h := C3_chain_structure ⟨0, 0⟩ 2 60 0
  refine ⟨h.1, ?_, ?_⟩
  · apply h.2.1
    simp only [compute]
    rw [List.getElem?_map, List.getElem?_range (by norm_num)]
    rfl
  · apply h.2.2 0
    · simp only [compute]
      rw [List.getElem?_map, List.getElem?_range (by norm_num)]
      rfl
    · simp only [compute]
      rw [List.getElem?_map, List.getElem?_range (by norm_num)]
      rfl

/-- C7: for `circleCount > 1` and `baseRadius > 0`, the radii of the chain
are strictly decreasing in the circle index, since `4 / (n * 3.14159)` is
strictly decreasing over the odd harmonics `n = 1, 3, 5, ...`. -/
theorem C7_radii_strict_decreasing (origin : Point2D) (circleCount : ℕ)
    (baseRadius time : ℝ) (_hN : 1 < circleCount) (hr : 0 < baseRadius) :
    ((compute origin circleCount baseRadius time).circles.map
      Circle.radius).Pairwise (fun a b => b < a) := by
  have hpil : (0 : ℝ) < piLit := by norm_num [piLit]
  have key : ∀ i j : ℕ, i < j →
      circleRadius baseRadius j < circleRadius baseRadius i := by
    intro i j hij
    unfold circleRadius
    apply mul_lt_mul_of_pos_left _ hr
    apply div_lt_div_of_pos_left (by norm_num)
    · exact mul_pos (by positivity) hpil
    · apply mul_lt_mul_of_pos_right _ hpil
      have hij2 : (i : ℝ) < j := Nat.cast_lt.mpr hij
      linarith
  have hmap : (compute origin circleCount baseRadius time).circles.map
      Circle.radius = (List.range circleCount).map
        fun i => circleRadius baseRadius i := by
    simp only [compute]
    rw [List.map_map]
    rfl
  rw [hmap, List.pairwise_map]
  exact (List.pairwise_lt_range circleCount).imp fun h => key _ _ h

/-- C7 witness: the theorem applied to a concrete two-circle chain with
`baseRadius = 60`, `time = 0`. -/
theorem C7_radii_strict_decreasing_witness :
    1 < 2 ∧ (0 : ℝ) < 60 ∧
    ((compute ⟨0, 0⟩ 2 60 0).circles.map Circle.radius).Pairwise
      (fun a b => b < a) :=
  ⟨by norm_num, by norm_num,
    C7_radii_strict_decreasing ⟨0, 0⟩ 2 60 0 (by norm_num) (by norm_num)⟩

/-- C10: when the tip coincides with the last circle center, the tangent
vector is zero, its length is zero, so the `len > 0` guard of line 223
skips the normalization divide and both tangent-indicator endpoints equal
the tip. -/
theorem C10_tangent_degenerate (tip lastCenter : Point2D) (scale : ℝ)
    (h : tip = lastCenter) :
    (tangentIndicator tip lastCenter scale).1 = tip ∧
    (tangentIndicator tip lastCenter scale).2 = tip := by
  subst h
  unfold tangentIndicator
  simp

/-- C10 witness: the theorem applied at the concrete degenerate input where
the tip and the last circle center are both the origin. -/
theorem C10_tangent_degenerate_witness :
    (tangentIndicator ⟨0, 0⟩ ⟨0, 0⟩ 1).1 = (⟨0, 0⟩ : Point2D) ∧
    (tangentIndicator ⟨0, 0⟩ ⟨0, 0⟩ 1).2 = (⟨0, 0⟩ : Point2D) :=
  C10_tangent_degenerate ⟨0, 0⟩ ⟨0, 0⟩ 1 rfl

/-- C6 witness: the amended theorem applied to the concrete buffer
`[10, 20]` at `anchorX = 0`. -/
theorem C6_toPolyline_amended_witness :
    (toPolyline [10, 20] 0).length = 2 ∧
    (toPolyline [10, 20] 0)[0]? =
      some (0 + ((2 - 1 - 0 : ℕ) : ℚ), [(10 : ℚ), 20].getD 0 0) := by
  have h := C6_toPolyline_amended [10, 20] 0
  exact ⟨h.1, h.2.1 0 (by norm_num)⟩

end Fourier
